import Mathlib

/-!
# Verification of the codeu tool subsystem

A shallow embedding of the `codeu` repository's tool layer:

* `src/codeu/tools/terminal/tool.py` — the command safety filter
  (`_is_command_safe`) and the `bash_tool` facade with its exit-code
  marker protocol;
* `src/codeu/tools/terminal/bash_terminal.py` — `BashTerminal.execute`,
  modelled denotationally over a small command language;
* `src/codeu/tools/fs/grep.py` — plain-substring `grep` with the
  `max_matches` occurrence cap;
* `src/codeu/tools/fs/tree.py` — the bounded-depth recursive tree walk;
* `src/codeu/tools/editor/text_editor.py` — `text_view` and
  `str_replace_edit`;
* `src/codeu/__init__.py` — the string-formatting facades with the
  "Error: " prefix convention.

Strings are modelled as `List Char`; `String`-level wrappers are provided
at the boundaries where convenient.  Python's `\s` class is modelled over
its ASCII members (space, tab, newline, carriage return, form feed,
vertical tab), which covers every command character the filter's regexes
are ever exercised on here.
-/

namespace Codeu

/-- ASCII whitespace, as matched by Python's regex class backslash-s. -/
def isPyWs (c : Char) : Bool :=
  c = ' ' || c = '\t' || c = '\n' || c = '\x0d' || c = '\x0c' || c = '\x0b'

/-- ASCII decimal digit, as matched by Python's regex class backslash-d. -/
def isDigitCh (c : Char) : Bool :=
  '0' ≤ c && c ≤ '9'

/-- The character class of letters, digits, underscore, dot, slash and
hyphen used by `_is_command_safe` to tokenize a command. -/
def isTokenCh (c : Char) : Bool :=
  ('A' ≤ c && c ≤ 'Z') || ('a' ≤ c && c ≤ 'z') || ('0' ≤ c && c ≤ '9') ||
  c = '_' || c = '.' || c = '/' || c = '-'

/-- `Python str.strip()`: drop ASCII whitespace from both ends. -/
def pyStrip (l : List Char) : List Char :=
  ((l.dropWhile isPyWs).reverse.dropWhile isPyWs).reverse

/-- A regex word character (letter, digit or underscore), the class the
specification's "word-boundary matched" reading refers to. -/
def isWordCh (c : Char) : Bool :=
  ('A' ≤ c && c ≤ 'Z') || ('a' ≤ c && c ≤ 'z') || ('0' ≤ c && c ≤ '9') ||
  c = '_'

/-- Decide whether `pat` occurs as a prefix of `l`. -/
def isPrefixAt (pat l : List Char) : Bool :=
  pat.isPrefixOf l

/-! ## The command safety filter (`_is_command_safe`, tool.py lines 52-79) -/

/-- The fixed deny-list of administrative commands (tool.py lines 57-61). -/
def blacklist : List (List Char) :=
  ["groupadd".data, "groupdel".data, "groupmod".data, "ifdown".data,
   "ifup".data, "killall".data, "lvremove".data, "mount".data,
   "passwd".data, "pkill".data, "pvremove".data, "reboot".data,
   "route".data, "service".data, "shutdown".data, "su".data,
   "sysctl".data, "systemctl".data, "umount".data, "useradd".data,
   "userdel".data, "usermod".data, "vgremove".data]

/-- The extra deny-list (tool.py line 62). -/
def extraBlock : List (List Char) :=
  ["mkfs".data, "fdisk".data, "iptables".data, "ifconfig".data]

/-- `sudo` occurs right here, followed by whitespace or end-of-string
(the `sudo(\s|$)` part of the regex of tool.py line 65). -/
def sudoHere (l : List Char) : Bool :=
  isPrefixAt "sudo".data l &&
    (match l.drop 4 with | [] => true | c :: _ => isPyWs c)

/-- Scan for the regex `(^|\s)sudo(\s|$)`: `atBoundary` records whether
the current position is the string start or is preceded by whitespace. -/
def sudoScanAux : Bool → List Char → Bool
  | b, [] => b && sudoHere []
  | b, c :: rest => (b && sudoHere (c :: rest)) || sudoScanAux (isPyWs c) rest

/-- `re.search(r"(^|\s)sudo(\s|$)", cmd)` (tool.py line 65). -/
def sudoScan (cmd : List Char) : Bool :=
  sudoScanAux true cmd

/-- Match the tail of the regex `rm\s+-rf\s+(/\*|/($|\s))` against `l`:
a `/` followed by `*`, or a `/` followed by end-of-string or whitespace. -/
def rmRootTail : List Char → Bool
  | [] => false
  | c :: rest =>
    c == '/' &&
      (match rest with
       | [] => true
       | d :: _ => d == '*' || isPyWs d)

/-- Try to match `rm\s+-rf\s+(/\*|/($|\s))` starting exactly here: the
literal `rm`, one or more whitespace characters (greedily), the literal
`-rf`, one or more whitespace characters, then the tail alternation. -/
def rmRootMatchAt (l : List Char) : Bool :=
  if isPrefixAt "rm".data l then
    let rest := l.drop 2
    let ws1 := rest.takeWhile isPyWs
    let rest1 := rest.dropWhile isPyWs
    if ws1 = [] then false
    else if isPrefixAt "-rf".data rest1 then
      let rest2 := rest1.drop 3
      let ws2 := rest2.takeWhile isPyWs
      let rest3 := rest2.dropWhile isPyWs
      if ws2 = [] then false else rmRootTail rest3
    else false
  else false

/-- `re.search(r"rm\s+-rf\s+(/\*|/($|\s))", cmd)` (tool.py line 69):
the pattern matches somewhere in the string. -/
def rmRootScan : List Char → Bool
  | [] => rmRootMatchAt []
  | c :: rest => rmRootMatchAt (c :: rest) || rmRootScan rest

/-- The `re.findall` tokenization of tool.py line 73: the maximal runs of
token characters (letters, digits, underscore, dot, slash, hyphen).
`fuel` bounds the recursion so the definition is structural (it is
initialized to the string length, which always suffices). -/
def findTokensAux : Nat → List Char → List (List Char)
  | 0, _ => []
  | _, [] => []
  | fuel + 1, c :: rest =>
    if isTokenCh c then
      (c :: rest.takeWhile isTokenCh) :: findTokensAux fuel (rest.dropWhile isTokenCh)
    else
      findTokensAux fuel rest

/-- The maximal token runs of a command string. -/
def findTokens (l : List Char) : List (List Char) :=
  findTokensAux l.length l

/-- `os.path.basename` on POSIX: the part after the last `/`. -/
def basenameOf (t : List Char) : List Char :=
  ((t.reverse.takeWhile (fun c => c ≠ '/')).reverse)

/-- Reasons returned by the safety filter.  The source returns the
message strings "Use of 'sudo' is not allowed.", "Dangerous removal
detected (rm -rf on root)." and "Command '<base>' is not permitted.";
they are represented structurally here. -/
inductive SafetyReason where
  | sudoBlocked : SafetyReason
  | rmRootBlocked : SafetyReason
  | commandBlocked (base : List Char) : SafetyReason
deriving DecidableEq, Repr

/-- Render a `SafetyReason` as the source's message string. -/
def renderReason : SafetyReason → List Char
  | .sudoBlocked => "Use of \x27sudo\x27 is not allowed.".data
  | .rmRootBlocked => "Dangerous removal detected (rm -rf on root).".data
  | .commandBlocked base =>
    "Command \x27".data ++ base ++ "\x27 is not permitted.".data

/-- Scan the token list for the first token whose basename is
deny-listed (the `for t in tokens` loop, tool.py lines 74-77). -/
def firstBlockedToken : List (List Char) → Option (List Char)
  | [] => none
  | t :: rest =>
    let base := basenameOf t
    if base ∈ blacklist ∨ base ∈ extraBlock then some base
    else firstBlockedToken rest

/-- `_is_command_safe(cmd)` (tool.py lines 52-79): returns
`(allowed, reason)`. -/
def isCommandSafe (cmd : List Char) : Bool × Option SafetyReason :=
  if sudoScan cmd then (false, some .sudoBlocked)
  else if rmRootScan cmd then (false, some .rmRootBlocked)
  else
    match firstBlockedToken (findTokens cmd) with
    | some base => (false, some (.commandBlocked base))
    | none => (true, none)

/-! ## The shell session and the `bash_tool` facade

`BashTerminal.execute` (bash_terminal.py lines 41-81) runs the command in
a subshell (`( command ) 2>&1; printf ...done marker...`), captures the
output up to the done marker and normalizes it (prompt removal, command
echo removal, trailing blank lines dropped, each line right-trimmed,
final `strip()`).  The shell itself is external to the repository; it is
modelled denotationally over a small command language that covers the
commands exercised by the specification: `echo <text>` (prints its
argument, succeeds), `exit <n>` (terminates the enclosing subshell with
status `n`, skipping the remaining commands of the wrapped command list)
and the exit-status marker instruction appended by `bash_tool`.  The
pexpect framing (prompt and done marker) is folded away because the
source's normalization removes it from the returned text. -/

/-- Decimal digits of `n`, most significant first (Python `str(int)`).
`fuel` keeps the recursion structural; `n + 1` always suffices. -/
def natDigitsAux : Nat → Nat → List Char
  | 0, _ => []
  | _, 0 => []
  | fuel + 1, n => natDigitsAux fuel (n / 10) ++ [Char.ofNat (48 + n % 10)]

/-- Decimal rendering of a natural number. -/
def natToDigits (n : Nat) : List Char :=
  if n = 0 then ['0'] else natDigitsAux (n + 1) n

/-- Value of a digit run, most significant first (Python `int(str)`). -/
def digitsVal : List Char → Nat → Nat
  | [], acc => acc
  | c :: rest, acc => digitsVal rest (acc * 10 + (c.toNat - 48))

/-- A command of the modelled shell language. -/
inductive SimpleCmd where
  | echoArg (s : List Char)
  | exitWith (n : Nat)
  | echoStatus
deriving DecidableEq, Repr

/-- Split a command string on the separator `"; "` used by `bash_tool`
when appending the marker instruction. -/
def splitOnSemiSp : List Char → List Char → List (List Char)
  | acc, [] => [acc.reverse]
  | acc, ';' :: ' ' :: rest => acc.reverse :: splitOnSemiSp [] rest
  | acc, c :: rest => splitOnSemiSp (c :: acc) rest

/-- Parse one simple command of the modelled language. -/
def parseSimple (s : List Char) : Option SimpleCmd :=
  if s = "echo \"__EXIT_CODE:$?\"".data then some .echoStatus
  else if isPrefixAt "echo ".data s then some (.echoArg (s.drop 5))
  else if isPrefixAt "exit ".data s then
    let ds := s.drop 5
    if ds ≠ [] ∧ ds.all isDigitCh then some (.exitWith (digitsVal ds 0))
    else none
  else none

/-- Parse a `"; "`-separated command list. -/
def parseCmdList (s : List Char) : Option (List SimpleCmd) :=
  (splitOnSemiSp [] s).mapM parseSimple

/-- Run a command list inside the subshell: each `echo` prints one line
and resets the status to 0; `exit n` terminates the subshell at once, so
the remaining commands (in particular a trailing marker instruction)
never run.  Returns the printed lines. -/
def runCmds : List SimpleCmd → Nat → List (List Char)
  | [], _ => []
  | .echoArg s :: rest, _ => s :: runCmds rest 0
  | .exitWith _ :: _, _ => []
  | .echoStatus :: rest, st =>
    ("__EXIT_CODE:".data ++ natToDigits st) :: runCmds rest 0

/-- Join output lines with newlines. -/
def joinLines : List (List Char) → List Char
  | [] => []
  | [l] => l
  | l :: rest => l ++ '\n' :: joinLines rest

/-- `BashTerminal.execute` over the modelled shell: run the command in a
subshell and return the normalized captured output.  Commands outside
the modelled language produce no output. -/
def terminalExecute (cmd : List Char) : List Char :=
  match parseCmdList cmd with
  | none => []
  | some cs => pyStrip (joinLines (runCmds cs 0))

/-- tool.py line 117: the exit-status marker instruction appended to the
caller's command. -/
def combinedCmd (c : List Char) : List Char :=
  c ++ "; echo \"__EXIT_CODE:$?\"".data

/-- Match the marker regex at this position: the literal marker followed
by at least one digit; the (greedy) digit run is the captured group. -/
def parseMarkerAt (l : List Char) : Option Nat :=
  if isPrefixAt "__EXIT_CODE:".data l then
    let ds := (l.drop 12).takeWhile isDigitCh
    if ds = [] then none else some (digitsVal ds 0)
  else none

/-- `re.search` for the marker pattern (tool.py line 121): the exit code
embedded at the first position where the whole pattern matches. -/
def parseExitCode : List Char → Option Nat
  | [] => none
  | c :: rest =>
    match parseMarkerAt (c :: rest) with
    | some n => some n
    | none => parseExitCode rest

/-- `re.sub` of the end-anchored marker pattern (tool.py line 126):
remove an optional newline, the marker, its digits and an optional
trailing newline, when they sit at the very end of the output. -/
def removeMarkerSuffix (l : List Char) : List Char :=
  let r := l.reverse
  let r1 := match r with | '\n' :: rest => rest | _ => r
  let ds := r1.takeWhile isDigitCh
  let r2 := r1.dropWhile isDigitCh
  if ds = [] then l
  else if isPrefixAt ("__EXIT_CODE:".data.reverse) r2 then
    let r3 := r2.drop 12
    let r4 := match r3 with | '\n' :: rest => rest | _ => r3
    r4.reverse
  else l

/-- The result classification and rendering of tool.py lines 120-136:
extract the exit code from the marker; with no marker, assume success
and return the raw output; with a nonzero code, render an error; with
code 0, return the marker-stripped output. -/
def renderExecResult (output : List Char) : List Char :=
  match parseExitCode output with
  | none => output
  | some n =>
    let out2 := pyStrip (removeMarkerSuffix output)
    if n ≠ 0 then
      if out2 ≠ [] then
        "Error: command failed with exit code ".data ++ natToDigits n ++
          '\n' :: out2
      else
        "Error: command failed with exit code ".data ++ natToDigits n
    else out2

/-- `bash_tool` (tool.py lines 82-136), parameterized by the shell so
that rejected commands can be shown never to reach it: input validation,
safety filter, marker appending, execution, exit-code extraction and
result rendering. -/
def bashToolGen (shell : List Char → List Char) (cmd : List Char) : List Char :=
  if pyStrip cmd = [] then "Error: command must be a non-empty string.".data
  else
    let sr := isCommandSafe cmd
    if sr.1 = false then
      "Error: ".data ++ (match sr.2 with | some r => renderReason r | none => [])
    else
      renderExecResult (shell (combinedCmd cmd))

/-- `bash_tool` against the modelled shell. -/
def bashTool (cmd : List Char) : List Char :=
  bashToolGen terminalExecute cmd

/-! ## Text search (`grep`, fs/grep.py)

The filesystem is abstracted as a list of candidate files, each a path
together with its decoded lines (the file collection, binary exclusion
and decoding of lines 120-159 are the filesystem boundary).  Matching is
modelled for the plain-substring modes (fs/grep.py lines 165-189); regex
mode shares the identical cap logic and is outside the model. -/

/-- One matched line (the `GrepMatch` dataclass, fs/grep.py lines 9-22). -/
structure GrepMatch where
  filePath : List Char
  lineNumber : Nat
  lineText : List Char
  spans : List (Nat × Nat)
deriving DecidableEq, Repr

/-- The span-collection loop of fs/grep.py lines 170-189: repeatedly
`find` the query from the current offset and skip past each occurrence
(non-overlapping, leftmost first).  `fuel` keeps the recursion
structural; `line.length + 1` always suffices. -/
def lineSpansAux (q : List Char) : Nat → Nat → List Char → List (Nat × Nat)
  | 0, _, _ => []
  | fuel + 1, i, l =>
    if isPrefixAt q l then
      (i, i + q.length) :: lineSpansAux q fuel (i + q.length) (l.drop q.length)
    else
      match l with
      | [] => []
      | _ :: rest => lineSpansAux q fuel (i + 1) rest

/-- All match spans of the query on one line (fs/grep.py lines 161-189):
the empty query matches nothing; case-insensitive mode lowercases both
sides but records spans with the original query length. -/
def lineSpans (caseSensitive : Bool) (q line : List Char) : List (Nat × Nat) :=
  if q = [] then []
  else if caseSensitive then
    lineSpansAux q (line.length + 1) 0 line
  else
    lineSpansAux (q.map Char.toLower) (line.length + 1) 0 (line.map Char.toLower)

/-- Process the lines of one file (fs/grep.py lines 157-212), given the
running total of occurrences; returns the file's matches and the new
total.  With a cap: a match-bearing line reached with no remaining
budget stops the file; a line whose spans exceed the budget is truncated
to it; reaching the cap stops the file. -/
def grepLines (maxM : Option Nat) (spansOf : List Char → List (Nat × Nat))
    (path : List Char) : Nat → Nat → List (List Char) →
    List GrepMatch × Nat
  | _, total, [] => ([], total)
  | idx, total, line :: rest =>
    let spans := spansOf line
    if spans = [] then grepLines maxM spansOf path (idx + 1) total rest
    else
      match maxM with
      | none =>
        let p := grepLines maxM spansOf path (idx + 1) total rest
        (⟨path, idx, line, spans⟩ :: p.1, p.2)
      | some m =>
        if total ≥ m then ([], total)
        else
          let spans2 := if spans.length > m - total then spans.take (m - total) else spans
          let total2 := total + spans2.length
          if total2 ≥ m then ([⟨path, idx, line, spans2⟩], total2)
          else
            let p := grepLines maxM spansOf path (idx + 1) total2 rest
            (⟨path, idx, line, spans2⟩ :: p.1, p.2)

/-- The file loop of fs/grep.py lines 150-215: after each file, stop if
the cap has been reached. -/
def grepFilesAux (maxM : Option Nat) (spansOf : List Char → List (Nat × Nat)) :
    Nat → List (List Char × List (List Char)) → List GrepMatch
  | _, [] => []
  | total, (path, lines) :: rest =>
    let p := grepLines maxM spansOf path 1 total lines
    match maxM with
    | some m => if p.2 ≥ m then p.1 else p.1 ++ grepFilesAux maxM spansOf p.2 rest
    | none => p.1 ++ grepFilesAux maxM spansOf p.2 rest

/-- `grep` (fs/grep.py lines 25-217) over the abstract candidate-file
list: validates the cap (`max_matches` is a Python int, so negative
values are representable and rejected with `ValueError`) and runs the
scan. -/
def grepModel (files : List (List Char × List (List Char)))
    (caseSensitive : Bool) (q : List Char) (maxMatches : Option Int) :
    Except (List Char) (List GrepMatch) :=
  match maxMatches with
  | some m =>
    if m < 0 then .error "max_matches must be non-negative or None".data
    else .ok (grepFilesAux (some m.toNat) (lineSpans caseSensitive q) 0 files)
  | none => .ok (grepFilesAux none (lineSpans caseSensitive q) 0 files)

/-- The uncapped scan result. -/
def grepUncapped (files : List (List Char × List (List Char)))
    (caseSensitive : Bool) (q : List Char) : List GrepMatch :=
  grepFilesAux none (lineSpans caseSensitive q) 0 files

/-- Total number of span occurrences over a match list. -/
def spanCount (ms : List GrepMatch) : Nat :=
  (ms.map (fun m => m.spans.length)).sum

/-- Greedy occurrence-level truncation of a match list to at most `n`
spans: whole matches are kept while they fit; the match that crosses the
budget keeps only its first spans; nothing follows it. -/
def truncMatches : Nat → List GrepMatch → List GrepMatch
  | _, [] => []
  | n, m :: rest =>
    if n = 0 then []
    else if m.spans.length ≥ n then [{ m with spans := m.spans.take n }]
    else m :: truncMatches (n - m.spans.length) rest

/-! ## The text editor (`text_view` and `str_replace_edit`, text_editor.py)

The path sandbox (`_resolve_path`) and the binary check are the
filesystem boundary: the models receive the resolved path and the
decoded file content directly. -/

/-- `f.readlines()`: split the content into lines, each keeping its
trailing newline; a final fragment without a newline is kept; the empty
content yields no lines.  `acc` holds the current line, reversed. -/
def readlinesAux : List Char → List Char → List (List Char)
  | acc, [] => if acc = [] then [] else [acc.reverse]
  | acc, c :: rest =>
    if c = '\n' then (acc.reverse ++ ['\n']) :: readlinesAux [] rest
    else readlinesAux (c :: acc) rest

/-- The lines of the file content, newline terminators kept. -/
def readlinesL (content : List Char) : List (List Char) :=
  readlinesAux [] content

/-- Python `"".join`: concatenation. -/
def joinAll (ls : List (List Char)) : List Char :=
  ls.flatten

/-- Signed decimal rendering, Python `f"{i:+d}"`. -/
def fmtSigned (i : Int) : List Char :=
  if i < 0 then '-' :: natToDigits i.natAbs else '+' :: natToDigits i.natAbs

/-- `v is not None and v <= 0` (the line-range validations of
text_editor.py lines 108-111). -/
def nonPositive : Option Int → Bool
  | some v => decide (v ≤ 0)
  | none => false

/-- `start is not None and end is not None and end < start`
(text_editor.py line 112). -/
def endBeforeStart : Option Int → Option Int → Bool
  | some s, some e => decide (e < s)
  | _, _ => false

/-- `text_view` (text_editor.py lines 76-146) on resolved, non-binary,
decodable content: validate the 1-based inclusive line range, clamp it,
slice the lines, apply the character truncation (a negative
`max_characters` is silently ignored, per the `>= 0` guard on line 134),
and render the header followed by a blank line and the selected
content. -/
def textView (path content : List Char) (startLine endLine : Option Int)
    (maxCharacters : Option Int) : List Char :=
  if nonPositive startLine then
    "Error: start_line must be a positive integer if provided.".data
  else if nonPositive endLine then
    "Error: end_line must be a positive integer if provided.".data
  else if endBeforeStart startLine endLine then
    "Error: end_line must be greater than or equal to start_line.".data
  else
    let lines := readlinesL content
    let total : Int := lines.length
    let s : Int := max 1 (startLine.getD 1)
    let e : Int := min total (endLine.getD total)
    let selected := joinAll ((lines.drop (s - 1).toNat).take (e - (s - 1)).toNat)
    let truncated : Bool :=
      match maxCharacters with
      | some m => decide (0 ≤ m) && decide ((selected.length : Int) > m)
      | none => false
    let selected2 := if truncated then selected.take (maxCharacters.getD 0).toNat
      else selected
    "Path: ".data ++ path ++ "\nLines: ".data ++ natToDigits s.toNat ++
      "-".data ++ natToDigits e.toNat ++ " (total ".data ++
      natToDigits total.toNat ++ ")".data ++
      (if truncated then "\nNote: content truncated due to max_characters limit.".data
       else []) ++
      "\n\n".data ++ selected2

/-- `str_replace_edit`'s replacement content (text_editor.py lines
201-241): the new file content on success, `none` on any of the editor's
refusals (empty `old_str` on a non-empty file, no occurrence, occurrence
index out of range). -/
def strReplaceContent (orig old new : List Char) (k : Nat) :
    Option (List Char) :=
  if old = [] then
    if orig = [] then some new else none
  else
    let occs := lineSpans true old orig
    if occs = [] then none
    else
      match occs.get? k with
      | none => none
      | some se => some (orig.take se.1 ++ new ++ orig.drop se.2)

/-- Two half-open spans overlap when they share a position. -/
def spansOverlap (a b : Nat × Nat) : Bool :=
  max a.1 b.1 < min a.2 b.2

/-- The round-trip claim's precondition, read literally from the
specification's words: at the replaced site (occurrence `k` of `old`),
among the occurrences of `old` and of `new` lying elsewhere in the file,
no occurrence of `old` overlaps an occurrence of `new`, and none of them
overlaps the site itself. -/
def noOverlapElsewhere (content old new : List Char) (k : Nat) : Bool :=
  match (lineSpans true old content).get? k with
  | none => false
  | some site =>
    let oldElse := (lineSpans true old content).filter (fun sp => sp != site)
    let newElse := (lineSpans true new content).filter
      (fun sp => !(spansOverlap sp site))
    oldElse.all (fun o => newElse.all (fun n => !(spansOverlap o n))) &&
      oldElse.all (fun o => !(spansOverlap o site))

/-! ## Directory listing and the bounded tree walk (fs/ls.py, fs/tree.py)

The filesystem is abstracted as a forest of named files and directories
(a mutual inductive, so that the traversal is structurally recursive).
Glob filtering (`fnmatch` over the POSIX relative path) is abstracted as
an arbitrary predicate `patOk` on the relative path segments — the
claims about the walk hold for every filter, and `patterns = None`
corresponds to the constantly-true predicate.  Permission errors are not
representable in the abstract filesystem. -/

mutual
/-- A file or directory in the abstract filesystem. -/
inductive FSTree where
  | file (name : List Char) : FSTree
  | dir (name : List Char) (children : FSForest) : FSTree
/-- A list of sibling entries, in iteration order. -/
inductive FSForest where
  | nil : FSForest
  | cons (hd : FSTree) (tl : FSForest) : FSForest
end

/-- The entry's base name. -/
def FSTree.name : FSTree → List Char
  | .file n => n
  | .dir n _ => n

/-- Whether the entry is a directory. -/
def FSTree.isDir : FSTree → Bool
  | .file _ => false
  | .dir _ _ => true

/-- A `DirEntry` (fs/ls.py lines 9-20). -/
structure DirEntry where
  path : List (List Char)
  name : List Char
  isDir : Bool
deriving DecidableEq, Repr

/-- A `TreeEntry` (fs/tree.py lines 9-22).  `path` is the returned path
as segments (relative, or prefixed with the root when absolute paths
are requested). -/
structure TreeEntry where
  path : List (List Char)
  name : List Char
  isDir : Bool
  depth : Nat
deriving DecidableEq, Repr

/-- The traversal configuration of `tree` (fs/tree.py lines 25-33). -/
structure TreeCfg where
  includeFiles : Bool
  includeDirs : Bool
  patOk : List (List Char) → Bool
  absolutePaths : Bool
  rootSegs : List (List Char)
  maxDepth : Nat

/-- `should_include` (fs/tree.py lines 86-92): the file/directory
toggles, then the pattern filter on the relative path. -/
def shouldIncludeT (cfg : TreeCfg) (rel : List (List Char)) (isDir : Bool) :
    Bool :=
  if (isDir && !cfg.includeDirs) || (!isDir && !cfg.includeFiles) then false
  else cfg.patOk rel

mutual
/-- One loop iteration of `dfs` (fs/tree.py lines 99-117) for a single
child: emit the child's entry when included, then — for a directory —
descend (the descent is unconditional on the inclusion toggles; the
recursive `dfs` call immediately returns when the child's depth has
reached `max_depth`, per the guard on line 96). -/
def walkChild (cfg : TreeCfg) : FSTree → List (List Char) → List TreeEntry
  | .file n, parentRel =>
    let rel := parentRel ++ [n]
    if shouldIncludeT cfg rel false then
      [⟨if cfg.absolutePaths then cfg.rootSegs ++ rel else rel, n, false,
        rel.length⟩]
    else []
  | .dir n cs, parentRel =>
    let rel := parentRel ++ [n]
    (if shouldIncludeT cfg rel true then
      [⟨if cfg.absolutePaths then cfg.rootSegs ++ rel else rel, n, true,
        rel.length⟩]
     else []) ++
    (if cfg.maxDepth ≤ rel.length then [] else walkForest cfg cs rel)
/-- The `for entry in current.iterdir()` loop over the siblings. -/
def walkForest (cfg : TreeCfg) : FSForest → List (List Char) → List TreeEntry
  | .nil, _ => []
  | .cons c t, parentRel => walkChild cfg c parentRel ++ walkForest cfg t parentRel
end

/-- `tree` (fs/tree.py lines 25-125) on an abstract root directory:
validate `max_depth` and the inclusion toggles, then walk from the root
at depth 0. -/
def treeModel (rootChildren : FSForest) (maxDepth : Int)
    (patOk : List (List Char) → Bool) (incF incD absPaths : Bool)
    (rootSegs : List (List Char)) : Except (List Char) (List TreeEntry) :=
  if ¬(1 ≤ maxDepth ∧ maxDepth ≤ 3) then
    .error "max_depth must be in the range [1, 3]".data
  else if !incF && !incD then
    .error "At least one of include_files or include_dirs must be True.".data
  else
    let cfg : TreeCfg := ⟨incF, incD, patOk, absPaths, rootSegs, maxDepth.toNat⟩
    .ok (if cfg.maxDepth ≤ 0 then [] else walkForest cfg rootChildren [])

/-- The child loop of `ls` (fs/ls.py lines 91-105): direct children
only, inclusion toggles first, then the pattern filter. -/
def lsEntries (patOk : List (List Char) → Bool) (incF incD absPaths : Bool)
    (rootSegs : List (List Char)) : FSForest → List DirEntry
  | .nil => []
  | .cons c t =>
    let isD := c.isDir
    let rel : List (List Char) := [c.name]
    (if (isD && !incD) || (!isD && !incF) then []
     else if !patOk rel then []
     else [⟨if absPaths then rootSegs ++ rel else rel, c.name, isD⟩]) ++
    lsEntries patOk incF incD absPaths rootSegs t

/-- `ls` (fs/ls.py lines 23-107) on an abstract directory. -/
def lsModel (children : FSForest) (patOk : List (List Char) → Bool)
    (incF incD absPaths : Bool) (rootSegs : List (List Char)) :
    Except (List Char) (List DirEntry) :=
  if !incF && !incD then
    .error "At least one of include_files or include_dirs must be True.".data
  else .ok (lsEntries patOk incF incD absPaths rootSegs children)

/-! ## The string facades (src/codeu/__init__.py)

Each facade renders a successful structured result as plain text and an
exception as the text `"Error: "` followed by the exception message. -/

/-- Render path segments as a POSIX path. -/
def renderPath : List (List Char) → List Char
  | [] => []
  | [s] => s
  | s :: rest => s ++ '/' :: renderPath rest

/-- One grep output line, `"path:line: text"` (init line 55). -/
def fmtGrepMatch (m : GrepMatch) : List Char :=
  m.filePath ++ ":".data ++ natToDigits m.lineNumber ++ ": ".data ++ m.lineText

/-- `grep_tool` (init lines 27-56); `max_matches` defaults to 50. -/
def grepToolFacade (files : List (List Char × List (List Char)))
    (caseSensitive : Bool) (q : List Char)
    (maxMatches : Option Int := some 50) : List Char :=
  match grepModel files caseSensitive q maxMatches with
  | .error e => "Error: ".data ++ e
  | .ok ms =>
    if ms = [] then "No matches found.".data
    else joinLines (ms.map fmtGrepMatch)

/-- One ls output line, `"[D]/[F] name — path"` (init lines 82-84). -/
def fmtDirEntry (e : DirEntry) : List Char :=
  (if e.isDir then "[D] ".data else "[F] ".data) ++ e.name ++ " — ".data ++
    renderPath e.path

/-- `ls_tool` (init lines 59-87). -/
def lsToolFacade (children : FSForest) (patOk : List (List Char) → Bool)
    (incF incD absPaths : Bool) (rootSegs : List (List Char)) : List Char :=
  match lsModel children patOk incF incD absPaths rootSegs with
  | .error e => "Error: ".data ++ e
  | .ok es =>
    if es = [] then "(empty)".data
    else joinLines (es.map fmtDirEntry)

/-- `n` copies of the two-space indent (init lines 112-113). -/
def indentOf (depth : Nat) : List Char :=
  List.replicate (2 * (depth - 1)) ' '

/-- One tree output line (init lines 115-117). -/
def fmtTreeEntry (e : TreeEntry) : List Char :=
  indentOf e.depth ++
    (if e.isDir then "[D] ".data else "[F] ".data) ++ e.name ++ " — ".data ++
    renderPath e.path

/-- `tree_tool` (init lines 90-120). -/
def treeToolFacade (rootChildren : FSForest) (maxDepth : Int)
    (patOk : List (List Char) → Bool) (incF incD absPaths : Bool)
    (rootSegs : List (List Char)) : List Char :=
  match treeModel rootChildren maxDepth patOk incF incD absPaths rootSegs with
  | .error e => "Error: ".data ++ e
  | .ok es =>
    if es = [] then "(empty)".data
    else joinLines (es.map fmtTreeEntry)

/-- The full response text of `str_replace_edit` (text_editor.py lines
149-266) on resolved, non-binary, decodable content: validation, the
empty-`old_str` special case, occurrence search and selection, and the
success summary with its context snippet of radius 120. -/
def strReplaceEditResp (path orig old new : List Char) (k : Int) : List Char :=
  if k < 0 then "Error: occurrence_index must be a non-negative integer.".data
  else if old = [] then
    if orig = [] then
      let edited := new
      let snippetEnd := min edited.length (new.length + 120)
      "Path: ".data ++ path ++
        "\nInserted into empty file (no search performed)\nDelta size: ".data ++
        fmtSigned (new.length : Int) ++ " chars\nNew file size: ".data ++
        natToDigits edited.length ++
        " chars\n\nSnippet around edit:\n".data ++ edited.take snippetEnd
    else
      ("Error: old_str empty is only allowed when the file is empty; " ++
        "use a non-empty old_str or a full-file write tool.").data
  else
    let occs := lineSpans true old orig
    if occs = [] then "Error: old_str not found in file; no changes applied.".data
    else if h : occs.length ≤ k.toNat then
      "Error: occurrence_index ".data ++ natToDigits k.toNat ++
        " out of range; found ".data ++ natToDigits occs.length ++
        " occurrence(s).".data
    else
      let se := occs.get ⟨k.toNat, by omega⟩
      let edited := orig.take se.1 ++ new ++ orig.drop se.2
      let delta : Int := (new.length : Int) - (old.length : Int)
      let snipStart := se.1 - 120
      let snipEnd := min edited.length (se.1 + new.length + 120)
      "Path: ".data ++ path ++ "\nReplaced occurrence #".data ++
        natToDigits k.toNat ++ " (chars ".data ++ natToDigits se.1 ++
        "-".data ++ natToDigits se.2 ++ ")\nDelta size: ".data ++
        fmtSigned delta ++ " chars\nNew file size: ".data ++
        natToDigits edited.length ++
        " chars\n\nSnippet around edit:\n".data ++
        (edited.drop snipStart).take (snipEnd - snipStart)


/-! ## Lemmas: the grep occurrence cap -/

theorem spanCount_nil : spanCount ([] : List GrepMatch) = 0 := rfl

theorem spanCount_cons (m : GrepMatch) (l : List GrepMatch) :
    spanCount (m :: l) = m.spans.length + spanCount l := by
  simp [spanCount]

theorem spanCount_append (a b : List GrepMatch) :
    spanCount (a ++ b) = spanCount a + spanCount b := by
  simp [spanCount]

theorem truncMatches_zero (l : List GrepMatch) : truncMatches 0 l = [] := by
  cases l <;> simp [truncMatches]

/-- Truncation to a budget strictly larger than the total is the
identity. -/
theorem truncMatches_of_lt : ∀ (l : List GrepMatch) (n : Nat),
    spanCount l < n → truncMatches n l = l
  | [], _, _ => rfl
  | m :: rest, n, h => by
    rw [spanCount_cons] at h
    have hn : ¬ n = 0 := by omega
    have hlen : ¬ m.spans.length ≥ n := by omega
    simp only [truncMatches, if_neg hn, if_neg hlen]
    rw [truncMatches_of_lt rest (n - m.spans.length) (by omega)]

/-- The truncated list never holds more than the budget. -/
theorem spanCount_truncMatches_le : ∀ (l : List GrepMatch) (n : Nat),
    spanCount (truncMatches n l) ≤ n
  | [], n => by simp [truncMatches, spanCount]
  | m :: rest, n => by
    by_cases hn : n = 0
    · simp [truncMatches, hn, spanCount]
    · by_cases hlen : m.spans.length ≥ n
      · simp only [truncMatches, if_neg hn, if_pos hlen]
        simp [spanCount, List.length_take]
      · simp only [truncMatches, if_neg hn, if_neg hlen]
        rw [spanCount_cons]
        have := spanCount_truncMatches_le rest (n - m.spans.length)
        omega

/-- Truncation never grows the total. -/
theorem spanCount_truncMatches_le_self : ∀ (l : List GrepMatch) (n : Nat),
    spanCount (truncMatches n l) ≤ spanCount l
  | [], n => by simp [truncMatches]
  | m :: rest, n => by
    by_cases hn : n = 0
    · simp [truncMatches, hn, spanCount]
    · by_cases hlen : m.spans.length ≥ n
      · simp only [truncMatches, if_neg hn, if_pos hlen]
        simp [spanCount, List.length_take]
      · simp only [truncMatches, if_neg hn, if_neg hlen]
        rw [spanCount_cons, spanCount_cons]
        have h2 := spanCount_truncMatches_le_self rest (n - m.spans.length)
        omega

/-- When the budget does not exceed the total, truncation attains it. -/
theorem spanCount_truncMatches_of_le : ∀ (l : List GrepMatch) (n : Nat),
    n ≤ spanCount l → spanCount (truncMatches n l) = n
  | [], n, h => by simp [spanCount] at h; simp [truncMatches, spanCount, h]
  | m :: rest, n, h => by
    rw [spanCount_cons] at h
    by_cases hn : n = 0
    · simp [truncMatches, hn, spanCount]
    · by_cases hlen : m.spans.length ≥ n
      · simp only [truncMatches, if_neg hn, if_pos hlen]
        simp [spanCount, List.length_take]
        omega
      · simp only [truncMatches, if_neg hn, if_neg hlen]
        rw [spanCount_cons,
          spanCount_truncMatches_of_le rest (n - m.spans.length) (by omega)]
        omega

theorem grepLines_cons_none (sp : List Char → List (Nat × Nat)) (p : List Char)
    (idx t : Nat) (line : List Char) (rest : List (List Char)) :
    grepLines none sp p idx t (line :: rest) =
      (if sp line = [] then grepLines none sp p (idx + 1) t rest
       else (⟨p, idx, line, sp line⟩ :: (grepLines none sp p (idx + 1) t rest).1,
             (grepLines none sp p (idx + 1) t rest).2)) := rfl

theorem grepLines_cons_some (sp : List Char → List (Nat × Nat)) (p : List Char)
    (m idx t : Nat) (line : List Char) (rest : List (List Char)) :
    grepLines (some m) sp p idx t (line :: rest) =
      (if sp line = [] then grepLines (some m) sp p (idx + 1) t rest
       else if t ≥ m then ([], t)
       else
         let spans2 := if (sp line).length > m - t then (sp line).take (m - t)
           else sp line
         let total2 := t + spans2.length
         if total2 ≥ m then ([⟨p, idx, line, spans2⟩], total2)
         else (⟨p, idx, line, spans2⟩ ::
                 (grepLines (some m) sp p (idx + 1) total2 rest).1,
               (grepLines (some m) sp p (idx + 1) total2 rest).2)) := rfl

/-- The uncapped line scan neither reads nor changes the running
total. -/
theorem grepLines_none_eq (sp : List Char → List (Nat × Nat)) (p : List Char) :
    ∀ (lines : List (List Char)) (idx t : Nat),
    grepLines none sp p idx t lines = ((grepLines none sp p idx 0 lines).1, t)
  | [], _, _ => rfl
  | line :: rest, idx, t => by
    rw [grepLines_cons_none, grepLines_cons_none]
    by_cases hs : sp line = []
    · simp only [if_pos hs]
      exact grepLines_none_eq sp p rest (idx + 1) t
    · simp only [if_neg hs]
      rw [grepLines_none_eq sp p rest (idx + 1) t]

/-- Once the running total has reached the cap, the line scan stops at
the first match-bearing line and returns nothing new. -/
theorem grepLines_some_of_ge (sp : List Char → List (Nat × Nat)) (p : List Char)
    (m : Nat) : ∀ (lines : List (List Char)) (idx t : Nat), m ≤ t →
    grepLines (some m) sp p idx t lines = ([], t)
  | [], _, _, _ => rfl
  | line :: rest, idx, t, h => by
    rw [grepLines_cons_some]
    by_cases hs : sp line = []
    · simp only [if_pos hs]
      exact grepLines_some_of_ge sp p m rest (idx + 1) t h
    · simp only [if_neg hs, if_pos (show t ≥ m from h)]

/-- The capped line scan equals the occurrence-level truncation of the
uncapped scan, and its final total is the old total plus what it
returned. -/
theorem grepLines_some_eq (sp : List Char → List (Nat × Nat)) (p : List Char)
    (m : Nat) : ∀ (lines : List (List Char)) (idx t : Nat), t < m →
    grepLines (some m) sp p idx t lines =
      (truncMatches (m - t) (grepLines none sp p idx 0 lines).1,
       t + spanCount (truncMatches (m - t) (grepLines none sp p idx 0 lines).1))
  | [], _, t, _ => by
    simp [grepLines, truncMatches, spanCount]
  | line :: rest, idx, t, h => by
    rw [grepLines_cons_some, grepLines_cons_none]
    by_cases hs : sp line = []
    · simp only [if_pos hs]
      exact grepLines_some_eq sp p m rest (idx + 1) t h
    · simp only [if_neg hs, if_neg (show ¬ t ≥ m by omega)]
      have hn0 : ¬ m - t = 0 := by omega
      by_cases hl : (sp line).length ≥ m - t
      · -- the budget is exhausted on this line
        simp only [truncMatches, if_neg hn0, if_pos hl, spanCount_cons,
          spanCount_nil, List.length_take]
        by_cases hgt : (sp line).length > m - t
        · simp only [if_pos hgt]
          have hl2 : (((sp line).take (m - t)).length) = m - t := by
            simp [List.length_take]; omega
          simp only [hl2]
          simp only [if_pos (show t + (m - t) ≥ m by omega)]
          have : min (m - t) (sp line).length = m - t := by omega
          simp [this]
        · have hleq : (sp line).length = m - t := by omega
          simp only [if_neg hgt]
          simp only [if_pos (show t + (sp line).length ≥ m by omega)]
          have : min (m - t) (sp line).length = m - t := by omega
          simp [this, ← hleq, List.take_length]
      · -- the whole line fits strictly below the cap
        have hgt : ¬ (sp line).length > m - t := by omega
        simp only [if_neg hgt]
        have h2 : t + (sp line).length < m := by
          have : (sp line).length < m - t := by omega
          omega
        simp only [if_neg (show ¬ t + (sp line).length ≥ m by omega)]
        rw [grepLines_some_eq sp p m rest (idx + 1) (t + (sp line).length) h2]
        simp only [truncMatches, if_neg hn0,
          if_neg (show ¬ (sp line).length ≥ m - t from hl), spanCount_cons]
        have : m - t - (sp line).length = m - (t + (sp line).length) := by omega
        rw [this]
        simp only [Prod.mk.injEq]
        exact ⟨trivial, by omega⟩

/-- A saturated truncation ignores everything appended after. -/
theorem truncMatches_append_of_ge : ∀ (a : List GrepMatch) (n : Nat)
    (b : List GrepMatch), n ≤ spanCount a →
    truncMatches n (a ++ b) = truncMatches n a
  | [], n, b, h => by
    simp [spanCount] at h
    simp [h, truncMatches_zero]
  | m :: rest, n, b, h => by
    rw [spanCount_cons] at h
    by_cases hn : n = 0
    · subst hn; rw [truncMatches_zero, truncMatches_zero]
    · by_cases hlen : m.spans.length ≥ n
      · simp only [List.cons_append, truncMatches, if_neg hn, if_pos hlen]
      · simp only [List.cons_append, truncMatches, if_neg hn, if_neg hlen, List.append_eq]
        rw [truncMatches_append_of_ge rest (n - m.spans.length) b (by omega)]

/-- An unsaturated truncation keeps the first list whole and continues
into the second with the remaining budget. -/
theorem truncMatches_append_of_lt : ∀ (a : List GrepMatch) (n : Nat)
    (b : List GrepMatch), spanCount a < n →
    truncMatches n (a ++ b) = a ++ truncMatches (n - spanCount a) b
  | [], n, b, _ => by simp [spanCount]
  | m :: rest, n, b, h => by
    rw [spanCount_cons] at h
    have hn : ¬ n = 0 := by omega
    have hlen : ¬ m.spans.length ≥ n := by omega
    simp only [List.cons_append, truncMatches, if_neg hn, if_neg hlen, List.append_eq]
    rw [truncMatches_append_of_lt rest (n - m.spans.length) b (by omega),
      spanCount_cons]
    have : n - m.spans.length - spanCount rest =
        n - (m.spans.length + spanCount rest) := by omega
    rw [this]

theorem grepFilesAux_cons_none (sp : List Char → List (Nat × Nat)) (t : Nat)
    (path : List Char) (lines : List (List Char))
    (rest : List (List Char × List (List Char))) :
    grepFilesAux none sp t ((path, lines) :: rest) =
      (grepLines none sp path 1 t lines).1 ++
        grepFilesAux none sp (grepLines none sp path 1 t lines).2 rest := rfl

theorem grepFilesAux_cons_some (sp : List Char → List (Nat × Nat)) (m t : Nat)
    (path : List Char) (lines : List (List Char))
    (rest : List (List Char × List (List Char))) :
    grepFilesAux (some m) sp t ((path, lines) :: rest) =
      (if (grepLines (some m) sp path 1 t lines).2 ≥ m
       then (grepLines (some m) sp path 1 t lines).1
       else (grepLines (some m) sp path 1 t lines).1 ++
         grepFilesAux (some m) sp (grepLines (some m) sp path 1 t lines).2 rest) :=
  rfl

/-- With a zero cap the scan returns nothing. -/
theorem grepFilesAux_of_zero (sp : List Char → List (Nat × Nat)) :
    ∀ files, grepFilesAux (some 0) sp 0 files = []
  | [] => rfl
  | (path, lines) :: rest => by
    rw [grepFilesAux_cons_some,
      grepLines_some_of_ge sp path 0 lines 1 0 (Nat.le_refl 0)]
    simp

/-- The capped file scan equals the occurrence-level truncation of the
uncapped scan. -/
theorem grepFilesAux_some_eq (sp : List Char → List (Nat × Nat)) (m : Nat) :
    ∀ (files : List (List Char × List (List Char))) (t : Nat), t < m →
    grepFilesAux (some m) sp t files =
      truncMatches (m - t) (grepFilesAux none sp 0 files)
  | [], t, _ => by simp [grepFilesAux, truncMatches]
  | (path, lines) :: rest, t, h => by
    rw [grepFilesAux_cons_some, grepFilesAux_cons_none,
      grepLines_some_eq sp path m lines 1 t h,
      grepLines_none_eq sp path lines 1 0]
    have hCle := spanCount_truncMatches_le (grepLines none sp path 1 0 lines).1 (m - t)
    by_cases hge :
        t + spanCount (truncMatches (m - t) (grepLines none sp path 1 0 lines).1) ≥ m
    · simp only [if_pos hge]
      have hsat : m - t ≤ spanCount (grepLines none sp path 1 0 lines).1 := by
        have := spanCount_truncMatches_le_self
          (grepLines none sp path 1 0 lines).1 (m - t)
        omega
      rw [truncMatches_append_of_ge (grepLines none sp path 1 0 lines).1 (m - t) _
        hsat]
    · simp only [if_neg hge]
      have hlt : spanCount (grepLines none sp path 1 0 lines).1 < m - t := by
        by_contra hk
        push_neg at hk
        have := spanCount_truncMatches_of_le
          (grepLines none sp path 1 0 lines).1 (m - t) hk
        omega
      rw [truncMatches_append_of_lt (grepLines none sp path 1 0 lines).1 (m - t) _
        hlt]
      rw [truncMatches_of_lt _ (m - t) hlt]
      rw [grepFilesAux_some_eq sp m rest
        (t + spanCount (grepLines none sp path 1 0 lines).1) (by omega)]
      have harith : m - (t + spanCount (grepLines none sp path 1 0 lines).1) =
          m - t - spanCount (grepLines none sp path 1 0 lines).1 := by omega
      rw [harith]

/-- C4: for every invocation of the modelled `grep` with a non-negative
total-occurrence cap `N`, the result is exactly the occurrence-level
truncation of the uncapped result to `N` spans — whole matched lines
while they fit, a mid-line span truncation on the line that crosses the
cap, and nothing from any later line or file — and in particular the
total number of returned span occurrences is at most `N`. -/
theorem grep_cap_truncates (files : List (List Char × List (List Char)))
    (cs : Bool) (q : List Char) (N : Nat) :
    grepModel files cs q (some (N : Int)) =
      .ok (truncMatches N (grepUncapped files cs q)) ∧
    spanCount (truncMatches N (grepUncapped files cs q)) ≤ N := by
  constructor
  · simp only [grepModel]
    rw [if_neg (show ¬ (N : Int) < 0 by omega)]
    rw [show ((N : Int)).toNat = N from Int.toNat_natCast N]
    by_cases hN : N = 0
    · subst hN
      rw [grepFilesAux_of_zero, truncMatches_zero]
    · rw [grepFilesAux_some_eq _ N files 0 (by omega)]
      rfl
  · exact spanCount_truncMatches_le _ N

/-- C10: when the caller of the `grep` facade does not pass
`max_matches`, the default cap of 50 total occurrences applies, so at
most 50 spans are returned across all files. -/
theorem grep_tool_default_cap (files : List (List Char × List (List Char)))
    (cs : Bool) (q : List Char) :
    grepToolFacade files cs q = grepToolFacade files cs q (some 50) ∧
    spanCount ((grepModel files cs q (some 50)).toOption.getD []) ≤ 50 := by
  constructor
  · rfl
  · have h50 : grepModel files cs q (some 50) =
        .ok (truncMatches 50 (grepUncapped files cs q)) := by
      simp only [grepModel]
      rw [if_neg (show ¬ (50 : Int) < 0 by omega)]
      rw [show ((50 : Int)).toNat = 50 from rfl]
      rw [grepFilesAux_some_eq _ 50 files 0 (by omega)]
      rfl
    rw [h50]
    simpa [Except.toOption] using
      spanCount_truncMatches_le (grepUncapped files cs q) 50

/-! ## Lemmas: reading and viewing files -/

theorem joinAll_cons (x : List Char) (xs : List (List Char)) :
    joinAll (x :: xs) = x ++ joinAll xs := by
  simp [joinAll]

/-- Joining the split lines restores the content. -/
theorem joinAll_readlinesAux : ∀ (l acc : List Char),
    joinAll (readlinesAux acc l) = acc.reverse ++ l
  | [], acc => by
    by_cases h : acc = []
    · simp [readlinesAux, h, joinAll]
    · simp [readlinesAux, h, joinAll]
  | c :: rest, acc => by
    simp only [readlinesAux]
    by_cases h : c = '\n'
    · rw [if_pos h, joinAll_cons, joinAll_readlinesAux rest []]
      simp [h]
    · rw [if_neg h, joinAll_readlinesAux rest (c :: acc)]
      simp

theorem joinAll_readlinesL (content : List Char) :
    joinAll (readlinesL content) = content := by
  simpa using joinAll_readlinesAux content []

/-- C6: with no line range and no character limit, the view of a valid
non-binary text file is the fixed two-line header (path, full clamped
line range), a blank line, and then exactly the raw file content; no
truncation note appears. -/
theorem text_view_full_content (path content : List Char) :
    textView path content none none none =
      "Path: ".data ++ path ++ "\nLines: ".data ++ natToDigits 1 ++
        "-".data ++ natToDigits (readlinesL content).length ++
        " (total ".data ++ natToDigits (readlinesL content).length ++
        ")".data ++ "\n\n".data ++ content := by
  have hjoin := joinAll_readlinesL content
  unfold textView
  simp [nonPositive, endBeforeStart, hjoin, Int.toNat_natCast, List.take_length]

/-! ## Lemmas: the exit-code protocol of bash_tool -/

theorem isPrefixAt_iff_exists : ∀ (p l : List Char),
    isPrefixAt p l = true ↔ ∃ t, p ++ t = l
  | [], l => by simp [isPrefixAt, List.isPrefixOf]
  | a :: p, [] => by simp [isPrefixAt, List.isPrefixOf]
  | a :: p, b :: l => by
    simp only [isPrefixAt, List.isPrefixOf, Bool.and_eq_true, beq_iff_eq]
    constructor
    · rintro ⟨rfl, h⟩
      obtain ⟨t, rfl⟩ := (isPrefixAt_iff_exists p l).mp h
      exact ⟨t, rfl⟩
    · rintro ⟨t, ht⟩
      injection ht with h1 h2
      subst h1
      exact ⟨rfl, (isPrefixAt_iff_exists p l).mpr ⟨t, h2⟩⟩

theorem isPrefixAt_self_append : ∀ (p x : List Char),
    isPrefixAt p (p ++ x) = true
  | [], _ => by simp [isPrefixAt, List.isPrefixOf]
  | a :: p, x => by
    simp only [isPrefixAt, List.cons_append, List.isPrefixOf_cons₂_self]
    exact isPrefixAt_self_append p x

/-- C9: when the marker yields a nonzero exit code `n`, the rendered
result begins with `"Error: command failed with exit code n"`; when no
marker is found, the raw normalized output is returned unchanged as a
success. -/
theorem bash_exit_code_rendering (out : List Char) (n : Nat) :
    (parseExitCode out = some n → n ≠ 0 →
      isPrefixAt ("Error: command failed with exit code ".data ++ natToDigits n)
        (renderExecResult out) = true) ∧
    (parseExitCode out = none → renderExecResult out = out) := by
  constructor
  · intro hp hn
    simp only [renderExecResult, hp]
    by_cases h2 : pyStrip (removeMarkerSuffix out) = []
    · simp only [h2, if_pos hn]
      simp only [ne_eq, not_true_eq_false, if_false, isPrefixAt]
      exact (isPrefixAt_iff_exists _ _).mpr ⟨[], by simp⟩
    · simp only [if_pos hn, if_neg h2, ne_eq, h2, not_false_eq_true, if_true]
      rw [show "Error: command failed with exit code ".data ++ natToDigits n ++
          '\n' :: pyStrip (removeMarkerSuffix out) =
        ("Error: command failed with exit code ".data ++ natToDigits n) ++
          '\n' :: pyStrip (removeMarkerSuffix out) by simp]
      exact isPrefixAt_self_append _ _
  · intro hp
    simp [renderExecResult, hp]

theorem bash_exit_code_rendering_witness :
    isPrefixAt ("Error: command failed with exit code ".data ++ natToDigits 3)
      (renderExecResult "boom\n__EXIT_CODE:3".data) = true ∧
    renderExecResult "plain".data = "plain".data :=
  ⟨(bash_exit_code_rendering "boom\n__EXIT_CODE:3".data 3).1 (by decide)
      (by decide),
   (bash_exit_code_rendering "plain".data 0).2 (by decide)⟩

/-- C1 counterexample: for the command `exit 7`, no exit code at all is
parsed from the output — the `exit` terminates the wrapping subshell
before the appended marker instruction runs — and `bash_tool` returns
the empty output as a success, not a result with exit code 7. -/
theorem bash_exit7_no_exit_code :
    parseExitCode (terminalExecute (combinedCmd "exit 7".data)) = none ∧
    bashTool "exit 7".data = [] := by
  exact ⟨by decide, by decide⟩

/-- C1 amended: `bash_tool "echo hi"` returns `"hi"` with parsed exit
code 0; the facade appends the exit-status marker instruction to every
command; but `bash_tool "exit 7"` yields no parsable marker (the `exit`
ends the subshell first), so it returns empty output as an
indeterminate-exit success instead of reporting exit code 7. -/
theorem bash_marker_protocol :
    bashTool "echo hi".data = "hi".data ∧
    parseExitCode (terminalExecute (combinedCmd "echo hi".data)) = some 0 ∧
    (∀ c : List Char, combinedCmd c = c ++ "; echo \"__EXIT_CODE:$?\"".data) ∧
    bashTool "exit 7".data = [] := by
  exact ⟨by decide, by decide, fun c => rfl, by decide⟩

/-! ## Lemmas: the safety filter -/

theorem rm_data_eq : "rm".data = ['r', 'm'] := rfl

theorem rf_data_eq : "-rf".data = ['-', 'r', 'f'] := rfl

theorem sudo_data_eq : "sudo".data = ['s', 'u', 'd', 'o'] := rfl

/-- A whitespace run followed by a non-whitespace head splits cleanly
under `takeWhile` and `dropWhile`. -/
theorem takeWhile_all_append (p : Char → Bool) : ∀ (w : List Char) (c : Char)
    (r : List Char), w.all p = true → p c = false →
    (w ++ c :: r).takeWhile p = w ∧ (w ++ c :: r).dropWhile p = c :: r
  | [], c, r, _, hc => by
    simp [List.takeWhile_cons, List.dropWhile_cons, hc]
  | a :: w, c, r, hw, hc => by
    simp only [List.all_cons, Bool.and_eq_true] at hw
    have ih := takeWhile_all_append p w c r hw.2 hc
    simp [List.takeWhile_cons, List.dropWhile_cons, hw.1, ih.1, ih.2]

/-- The root-removal regex matches at the start of a planted
`rm<ws>-rf<ws><root-tail>` decomposition. -/
theorem rmRootMatchAt_planted (w1 w2 tail : List Char) (hw1 : w1 ≠ [])
    (hw1a : w1.all isPyWs = true) (hw2 : w2 ≠ [])
    (hw2a : w2.all isPyWs = true) (ht : rmRootTail tail = true) :
    rmRootMatchAt ("rm".data ++ (w1 ++ ("-rf".data ++ (w2 ++ tail)))) = true := by
  obtain ⟨t0, rfl⟩ : ∃ t0, tail = '/' :: t0 := by
    cases tail with
    | nil => simp [rmRootTail] at ht
    | cons c t0 =>
      simp only [rmRootTail, Bool.and_eq_true, beq_iff_eq] at ht
      exact ⟨t0, by rw [ht.1]⟩
  have h1 := takeWhile_all_append isPyWs w1 '-'
    ('r' :: 'f' :: (w2 ++ ('/' :: t0))) hw1a (by decide)
  have h2 := takeWhile_all_append isPyWs w2 '/' t0 hw2a (by decide)
  rw [rm_data_eq, rf_data_eq]
  show rmRootMatchAt ('r' :: 'm' :: (w1 ++ ('-' :: 'r' :: 'f' :: (w2 ++ ('/' :: t0))))) = true
  unfold rmRootMatchAt
  rw [if_pos (show isPrefixAt "rm".data
      ('r' :: 'm' :: (w1 ++ ('-' :: 'r' :: 'f' :: (w2 ++ ('/' :: t0))))) = true by
    rw [rm_data_eq]; simp [isPrefixAt, List.isPrefixOf])]
  simp only [List.drop_succ_cons, List.drop_zero]
  rw [h1.1, h1.2, if_neg hw1]
  rw [if_pos (show isPrefixAt "-rf".data
      ('-' :: 'r' :: 'f' :: (w2 ++ ('/' :: t0))) = true by
    rw [rf_data_eq]; simp [isPrefixAt, List.isPrefixOf])]
  simp only [List.drop_succ_cons, List.drop_zero]
  rw [h2.1, h2.2, if_neg hw2]
  exact ht

/-- The root-removal scan finds a match planted after any prefix. -/
theorem rmRootScan_planted : ∀ (pre l : List Char),
    rmRootMatchAt l = true → rmRootScan (pre ++ l) = true
  | [], l, h => by
    cases l with
    | nil => simpa [rmRootScan] using h
    | cons c r => simp [rmRootScan, h]
  | c :: pre, l, h => by
    simp only [List.cons_append, rmRootScan, List.append_eq]
    rw [rmRootScan_planted pre l h]
    simp

theorem isCommandSafe_fst_of_rmRootScan (cmd : List Char)
    (h : rmRootScan cmd = true) : (isCommandSafe cmd).1 = false := by
  unfold isCommandSafe
  by_cases hs : sudoScan cmd
  · simp [hs]
  · simp [hs, h]

/-- C2 counterexample: `rm -fr /` (swapped flag order) and
`rm -r -f /` (separate flags) both pass the safety filter, which only
matches the literal combined `-rf` spelling. -/
theorem rm_flag_order_not_rejected :
    isCommandSafe "rm -fr /".data = (true, none) ∧
    isCommandSafe "rm -r -f /".data = (true, none) := by
  exact ⟨by decide, by decide⟩

/-- C2 amended: the filter rejects every command containing `rm`, one or
more whitespace characters, the literal combined flags `-rf`, one or
more whitespace characters, and then `/` at end-of-string, `/` before
whitespace, or `/*`; flag spellings other than the combined `-rf` in
that order are not covered. -/
theorem rm_rf_root_rejected (pre w1 w2 tail : List Char) (hw1 : w1 ≠ [])
    (hw1a : w1.all isPyWs = true) (hw2 : w2 ≠ [])
    (hw2a : w2.all isPyWs = true) (ht : rmRootTail tail = true) :
    (isCommandSafe (pre ++ ("rm".data ++ (w1 ++ ("-rf".data ++ (w2 ++ tail)))))).1 =
      false := by
  apply isCommandSafe_fst_of_rmRootScan
  exact rmRootScan_planted pre _
    (rmRootMatchAt_planted w1 w2 tail hw1 hw1a hw2 hw2a ht)

theorem rm_rf_root_rejected_witness :
    ((isCommandSafe ([] ++ ("rm".data ++ ([' '] ++ ("-rf".data ++ ([' '] ++ ['/'])))))).1 =
      false) :=
  rm_rf_root_rejected [] [' '] [' '] ['/'] (by decide) (by decide) (by decide)
    (by decide) (by decide)

/-- A non-whitespace element survives `dropWhile isPyWs`. -/
theorem mem_dropWhile_of_not : ∀ (l : List Char) (c : Char), c ∈ l →
    isPyWs c = false → c ∈ l.dropWhile isPyWs
  | a :: l, c, hc, hw => by
    rw [List.dropWhile_cons]
    by_cases ha : isPyWs a = true
    · simp only [ha, if_true]
      rcases List.mem_cons.mp hc with rfl | h
      · rw [hw] at ha
        exact absurd ha (by simp)
      · exact mem_dropWhile_of_not l c h hw
    · simp only [ha, if_false]
      exact hc

/-- A string containing a non-whitespace character does not strip to
empty. -/
theorem pyStrip_ne_nil (l : List Char) (c : Char) (hc : c ∈ l)
    (hw : isPyWs c = false) : pyStrip l ≠ [] := by
  intro h
  unfold pyStrip at h
  rw [List.reverse_eq_nil_iff, List.dropWhile_eq_nil_iff] at h
  have h1 : c ∈ l.dropWhile isPyWs := mem_dropWhile_of_not l c hc hw
  have h2 : c ∈ (l.dropWhile isPyWs).reverse := List.mem_reverse.mpr h1
  have h3 := h c h2
  rw [hw] at h3
  exact absurd h3 (by simp)

/-- A rejected command renders as the corresponding error text without
the shell being consulted: the result is the same for every shell. -/
theorem bashToolGen_rejected (sh : List Char → List Char) (cmd : List Char)
    (r : SafetyReason) (hstrip : pyStrip cmd ≠ [])
    (hsafe : isCommandSafe cmd = (false, some r)) :
    bashToolGen sh cmd = "Error: ".data ++ renderReason r := by
  unfold bashToolGen
  rw [if_neg hstrip]
  simp only [hsafe]
  simp

/-- `sudo(\s|$)` holds at the head of `sudo` followed by a whitespace
head or the string end. -/
theorem sudoHere_planted (b : List Char)
    (hb : b = [] ∨ ∃ c t, b = c :: t ∧ isPyWs c = true) :
    sudoHere ('s' :: 'u' :: 'd' :: 'o' :: b) = true := by
  rcases hb with rfl | ⟨c, t, rfl, hc⟩
  · simp [sudoHere, isPrefixAt, List.isPrefixOf, sudo_data_eq]
  · simp [sudoHere, isPrefixAt, List.isPrefixOf, sudo_data_eq, hc]

/-- The sudo scan accepts a planted whitespace-delimited `sudo`:
the position is reachable with the boundary flag justified by the
prefix, and the occurrence itself matches. -/
theorem sudoScanAux_planted : ∀ (a : List Char) (b : List Char) (pb : Bool),
    ((a = [] ∧ pb = true) ∨ ∃ a0 c, a = a0 ++ [c] ∧ isPyWs c = true) →
    (b = [] ∨ ∃ c t, b = c :: t ∧ isPyWs c = true) →
    sudoScanAux pb (a ++ ('s' :: 'u' :: 'd' :: 'o' :: b)) = true
  | [], b, pb, ha, hb => by
    have hpb : pb = true := by
      rcases ha with ⟨_, h⟩ | ⟨a0, c, h, _⟩
      · exact h
      · exact absurd h.symm (by simp)
    subst hpb
    simp only [List.nil_append, sudoScanAux]
    rw [sudoHere_planted b hb]
    simp
  | a1 :: a, b, pb, ha, hb => by
    rcases ha with ⟨h, _⟩ | ⟨a0, c, h, hc⟩
    · exact absurd h (by simp)
    · simp only [List.cons_append, sudoScanAux, List.append_eq]
      cases a0 with
      | nil =>
        simp only [List.nil_append] at h
        obtain ⟨rfl, rfl⟩ : a1 = c ∧ a = [] := by
          constructor
          · exact (List.cons.injEq a1 a c []).mp h |>.1
          · exact (List.cons.injEq a1 a c []).mp h |>.2
        rw [sudoScanAux_planted [] b (isPyWs a1) (Or.inl ⟨rfl, hc⟩) hb]
        simp
      | cons d a0 =>
        simp only [List.cons_append] at h
        obtain ⟨rfl, rfl⟩ : a1 = d ∧ a = a0 ++ [c] := by
          constructor
          · exact (List.cons.injEq a1 a d (a0 ++ [c])).mp h |>.1
          · exact (List.cons.injEq a1 a d (a0 ++ [c])).mp h |>.2
        rw [sudoScanAux_planted (a0 ++ [c]) b (isPyWs a1)
          (Or.inr ⟨a0, c, rfl, hc⟩) hb]
        simp

/-- C3 counterexample: in `true;sudo ls` the token `sudo` stands alone
at regex word boundaries (`;` and a space are not word characters), yet
the filter allows the command — the source regex demands whitespace, not
word boundaries, around `sudo`. -/
theorem sudo_word_boundary_not_rejected :
    "true;sudo ls".data =
      "true;".data ++ ("sudo".data ++ " ls".data) ∧
    isWordCh ';' = false ∧ isWordCh ' ' = false ∧
    isCommandSafe "true;sudo ls".data = (true, none) := by
  exact ⟨rfl, by decide, by decide, by decide⟩

/-- C3 amended: the filter rejects every command in which `sudo` is
delimited by the string start or whitespace on the left and whitespace
or the string end on the right — and such commands, in particular
`sudo rm -rf /`, are answered with the sudo error text for every shell,
so the command never reaches one; `sudo` adjacent to non-whitespace
punctuation is outside the guarantee. -/
theorem sudo_whitespace_rejected :
    (∀ (a b : List Char) (sh : List Char → List Char),
      (a = [] ∨ ∃ a0 c, a = a0 ++ [c] ∧ isPyWs c = true) →
      (b = [] ∨ ∃ c t, b = c :: t ∧ isPyWs c = true) →
      isCommandSafe (a ++ ("sudo".data ++ b)) = (false, some .sudoBlocked) ∧
      bashToolGen sh (a ++ ("sudo".data ++ b)) =
        "Error: Use of \x27sudo\x27 is not allowed.".data) ∧
    (∀ sh : List Char → List Char, bashToolGen sh "sudo rm -rf /".data =
      "Error: Use of \x27sudo\x27 is not allowed.".data) := by
  constructor
  · intro a b sh ha hb
    have hscan : sudoScan (a ++ ("sudo".data ++ b)) = true := by
      unfold sudoScan
      rw [sudo_data_eq]
      apply sudoScanAux_planted a b true _ hb
      rcases ha with rfl | h
      · exact Or.inl ⟨rfl, rfl⟩
      · exact Or.inr h
    have hsafe : isCommandSafe (a ++ ("sudo".data ++ b)) =
        (false, some .sudoBlocked) := by
      unfold isCommandSafe
      rw [hscan]
      simp
    refine ⟨hsafe, ?_⟩
    have hmem : 's' ∈ a ++ ("sudo".data ++ b) :=
      List.mem_append.mpr (Or.inr (List.mem_append.mpr (Or.inl (by decide))))
    have hstrip := pyStrip_ne_nil (a ++ ("sudo".data ++ b)) 's' hmem (by decide)
    rw [bashToolGen_rejected sh _ .sudoBlocked hstrip hsafe]
    decide
  · intro sh
    rw [bashToolGen_rejected sh _ .sudoBlocked (by decide) (by decide)]
    decide

theorem sudo_whitespace_rejected_witness :
    isCommandSafe ("true; ".data ++ ("sudo".data ++ " ls".data)) =
      (false, some .sudoBlocked) ∧
    bashToolGen (fun _ => []) ("true; ".data ++ ("sudo".data ++ " ls".data)) =
      "Error: Use of \x27sudo\x27 is not allowed.".data :=
  sudo_whitespace_rejected.1 "true; ".data " ls".data (fun _ => [])
    (Or.inr ⟨"true;".data, ' ', rfl, rfl⟩) (Or.inr ⟨' ', "ls".data, rfl, rfl⟩)

/-! ## Lemmas: the string-replace editor -/

/-- Every span produced by the scan starts at or after the scan origin,
spans exactly the query length, and marks a real occurrence of the
query. -/
theorem lineSpansAux_spec (q : List Char) : ∀ (fuel i : Nat) (l : List Char)
    (s e : Nat), (s, e) ∈ lineSpansAux q fuel i l →
    e = s + q.length ∧ i ≤ s ∧ isPrefixAt q (l.drop (s - i)) = true
  | 0, _, _, _, _, h => absurd h (by simp [lineSpansAux])
  | fuel + 1, i, l, s, e, h => by
    by_cases hp : isPrefixAt q l = true
    · simp only [lineSpansAux] at h
      rw [if_pos hp] at h
      rcases List.mem_cons.mp h with heq | htail
      · simp only [Prod.mk.injEq] at heq
        obtain ⟨rfl, rfl⟩ := heq
        refine ⟨rfl, Nat.le_refl _, ?_⟩
        simp [Nat.sub_self, hp]
      · obtain ⟨h1, h2, h3⟩ :=
          lineSpansAux_spec q fuel (i + q.length) (l.drop q.length) s e htail
        refine ⟨h1, by omega, ?_⟩
        rw [List.drop_drop] at h3
        have harith : q.length + (s - (i + q.length)) = s - i := by omega
        rwa [harith] at h3
    · simp only [lineSpansAux] at h
      rw [if_neg hp] at h
      cases l with
      | nil => exact absurd h (by simp)
      | cons c rest =>
        obtain ⟨h1, h2, h3⟩ := lineSpansAux_spec q fuel (i + 1) rest s e h
        refine ⟨h1, by omega, ?_⟩
        have harith : s - i = (s - (i + 1)) + 1 := by omega
        rw [harith, List.drop_succ_cons]
        exact h3

/-- With a nonempty query, the case-sensitive scan is the raw
occurrence scan from offset zero. -/
theorem lineSpans_true_eq (q line : List Char) (hq : q ≠ []) :
    lineSpans true q line = lineSpansAux q (line.length + 1) 0 line := by
  unfold lineSpans
  rw [if_neg hq]
  simp

/-- C5 amended: a successful `str_replace_edit` of occurrence `k` of a
nonempty `old` by a nonempty `new`, followed by the reverse edit, does
restore the original content provided occurrence `k` of `new` in the
edited file sits exactly at the replaced site.  (The specification's
no-overlap wording alone does not guarantee that alignment.) -/
theorem str_replace_roundtrip (orig old new edited : List Char) (k : Nat)
    (hold : old ≠ []) (hnew : new ≠ [])
    (hfwd : strReplaceContent orig old new k = some edited)
    (hsite : (lineSpans true new edited).get? k =
      ((lineSpans true old orig).get? k).map
        (fun se => (se.1, se.1 + new.length))) :
    strReplaceContent edited new old k = some orig := by
  unfold strReplaceContent at hfwd
  rw [if_neg hold] at hfwd
  by_cases hocc : lineSpans true old orig = []
  · rw [if_pos hocc] at hfwd
    exact absurd hfwd (by simp)
  rw [if_neg hocc] at hfwd
  cases hget : (lineSpans true old orig).get? k with
  | none =>
    rw [hget] at hfwd
    exact absurd hfwd (by simp)
  | some se =>
    obtain ⟨s, e⟩ := se
    rw [hget] at hfwd
    simp only [Option.some.injEq] at hfwd
    -- the span marks a genuine occurrence of old at position s
    have hmem : (s, e) ∈ lineSpans true old orig := List.get?_mem hget
    rw [lineSpans_true_eq old orig hold] at hmem
    obtain ⟨he, -, hpre⟩ :=
      lineSpansAux_spec old (orig.length + 1) 0 orig s e hmem
    rw [Nat.sub_zero] at hpre
    obtain ⟨t, ht⟩ : ∃ t, old ++ t = orig.drop s :=
      (isPrefixAt_iff_exists old (orig.drop s)).mp hpre
    -- s is within the string
    have hslen : s ≤ orig.length := by
      have hlen : (orig.drop s).length = orig.length - s := List.length_drop s orig
      have h1 : old.length + t.length = orig.length - s := by
        rw [← hlen, ← ht]
        simp
      have h2 : 1 ≤ old.length := by
        cases old with
        | nil => exact absurd rfl hold
        | cons _ _ => simp
      omega
    have htake : (orig.take s).length = s := by
      simp [List.length_take]
      omega
    -- the reverse replacement
    unfold strReplaceContent
    rw [if_neg hnew]
    rw [hget] at hsite
    simp only [Option.map_some'] at hsite
    have hocc2 : lineSpans true new edited ≠ [] := by
      intro hnil
      rw [hnil] at hsite
      simp at hsite
    rw [if_neg hocc2, hsite]
    show some (edited.take s ++ old ++ edited.drop (s + new.length)) = some orig
    have hA : edited.take s = orig.take s := by
      rw [← hfwd, List.append_assoc]
      exact List.take_left' htake
    have hB : edited.drop (s + new.length) = orig.drop e := by
      rw [← hfwd]
      exact List.drop_left' (by simp [htake])
    have hdrop : orig.drop e = t := by
      rw [he, ← List.drop_drop, ← ht]
      exact List.drop_left old t
    have hfinal : orig.take s ++ old ++ t = orig := by
      rw [List.append_assoc, ht]
      exact List.take_append_drop s orig
    rw [hA, hB, hdrop, hfinal]

theorem str_replace_roundtrip_witness :
    strReplaceContent "BAZ bar".data "BAZ".data "FOO".data 0 =
      some "FOO bar".data :=
  str_replace_roundtrip "FOO bar".data "FOO".data "BAZ".data "BAZ bar".data 0
    (by decide) (by decide) (by decide) (by decide)

/-- C5 counterexample: with file content `xay`, `old = "a"`,
`new = "x"`, `k = 0`, the literal no-overlap precondition holds (`old`
occurs only at the replaced site; the sole other occurrence of `new`
overlaps nothing), yet the round trip produces `axy`, not the original
`xay` — the reverse edit picks the earlier stray occurrence of `new`. -/
theorem str_replace_roundtrip_cex :
    noOverlapElsewhere "xay".data "a".data "x".data 0 = true ∧
    strReplaceContent "xay".data "a".data "x".data 0 = some "xxy".data ∧
    strReplaceContent "xxy".data "x".data "a".data 0 = some "axy".data ∧
    ("axy".data ≠ "xay".data) := by
  exact ⟨by decide, by decide, by decide, by decide⟩

/-! ## Lemmas: the bounded tree walk -/

mutual
/-- Entries produced under a child of an in-bounds directory respect
the depth bound, and (for relative paths) their depth is their number
of path segments. -/
theorem walkChild_depth : ∀ (cfg : TreeCfg) (t : FSTree)
    (pr : List (List Char)), pr.length < cfg.maxDepth →
    ∀ e ∈ walkChild cfg t pr, e.depth ≤ cfg.maxDepth ∧
      (cfg.absolutePaths = false → e.path.length = e.depth)
  | cfg, .file n, pr, h, e, he => by
    simp only [walkChild] at he
    split at he
    · rcases List.mem_singleton.mp he with rfl
      refine ⟨by simp; omega, fun habs => ?_⟩
      simp [habs]
    · exact absurd he (by simp)
  | cfg, .dir n cs, pr, h, e, he => by
    simp only [walkChild] at he
    rcases List.mem_append.mp he with hentry | hsub
    · split at hentry
      · rcases List.mem_singleton.mp hentry with rfl
        refine ⟨by simp; omega, fun habs => ?_⟩
        simp [habs]
      · exact absurd hentry (by simp)
    · split at hsub
      · exact absurd hsub (by simp)
      · rename_i hguard
        have hlt : (pr ++ [n]).length < cfg.maxDepth := by omega
        exact walkForest_depth cfg cs (pr ++ [n]) hlt e hsub

/-- The forest version of `walkChild_depth`. -/
theorem walkForest_depth : ∀ (cfg : TreeCfg) (f : FSForest)
    (pr : List (List Char)), pr.length < cfg.maxDepth →
    ∀ e ∈ walkForest cfg f pr, e.depth ≤ cfg.maxDepth ∧
      (cfg.absolutePaths = false → e.path.length = e.depth)
  | cfg, .nil, pr, _, e, he => absurd he (by simp [walkForest])
  | cfg, .cons c t, pr, h, e, he => by
    simp only [walkForest] at he
    rcases List.mem_append.mp he with h1 | h2
    · exact walkChild_depth cfg c pr h e h1
    · exact walkForest_depth cfg t pr h e h2
end

mutual
/-- Turning off directory entries filters them from the result but does
not change which files are reached: the walk still descends into every
in-bounds directory. -/
theorem walkChild_filter : ∀ (cfg : TreeCfg) (t : FSTree)
    (pr : List (List Char)),
    walkChild { cfg with includeDirs := false } t pr =
      (walkChild { cfg with includeDirs := true } t pr).filter
        (fun e => !e.isDir)
  | cfg, .file n, pr => by
    simp only [walkChild, shouldIncludeT]
    by_cases hpat : cfg.patOk (pr ++ [n]) = true
    · simp only [hpat]
      by_cases hf : cfg.includeFiles = true
      · simp [hf, List.filter]
      · simp [hf]
    · simp only [Bool.not_eq_true] at hpat
      simp [hpat]
  | cfg, .dir n cs, pr => by
    simp only [walkChild, shouldIncludeT]
    have ih := walkForest_filter cfg cs (pr ++ [n])
    have hlen : ((pr ++ [n]) : List (List Char)).length = pr.length + 1 := by simp
    by_cases hguard : cfg.maxDepth ≤ pr.length + 1
    · by_cases hpat : cfg.patOk (pr ++ [n]) = true
      · simp [hguard, hpat, hlen]
      · simp only [Bool.not_eq_true] at hpat
        simp [hguard, hpat, hlen]
    · by_cases hpat : cfg.patOk (pr ++ [n]) = true
      · simp [hguard, hpat, hlen, ih, List.filter_append]
      · simp only [Bool.not_eq_true] at hpat
        simp [hguard, hpat, hlen, ih, List.filter_append]

/-- The forest version of `walkChild_filter`. -/
theorem walkForest_filter : ∀ (cfg : TreeCfg) (f : FSForest)
    (pr : List (List Char)),
    walkForest { cfg with includeDirs := false } f pr =
      (walkForest { cfg with includeDirs := true } f pr).filter
        (fun e => !e.isDir)
  | cfg, .nil, pr => by simp [walkForest]
  | cfg, .cons c t, pr => by
    simp only [walkForest]
    rw [walkChild_filter cfg c pr, walkForest_filter cfg t pr,
      List.filter_append]
end

/-- C7: for every directory tree and valid `max_depth` in [1,3], the
walk never returns an entry whose depth exceeds `max_depth`; in
relative-path mode each entry's depth equals its number of path segments
from the traversal root (so direct children have depth 1); and running
with `include_dirs = False` returns exactly the `include_dirs = True`
result with the directory entries filtered out — every in-bounds
directory is still descended into. -/
theorem tree_depth_and_descent (root : FSForest) (d : Int)
    (patOk : List (List Char) → Bool) (incF incD absPaths : Bool)
    (rootSegs : List (List Char)) (res : List TreeEntry)
    (h1 : 1 ≤ d) (h2 : d ≤ 3)
    (hres : treeModel root d patOk incF incD absPaths rootSegs = .ok res) :
    (∀ e ∈ res, e.depth ≤ d.toNat ∧
      (absPaths = false → e.path.length = e.depth)) ∧
    treeModel root d patOk true false absPaths rootSegs =
      Except.map (List.filter (fun e => !e.isDir))
        (treeModel root d patOk true true absPaths rootSegs) := by
  have hcond : ¬¬(1 ≤ d ∧ d ≤ 3) := fun hc => hc ⟨h1, h2⟩
  have hd1 : ¬ d.toNat ≤ 0 := by omega
  constructor
  · unfold treeModel at hres
    rw [if_neg hcond] at hres
    by_cases hinc : (!incF && !incD) = true
    · rw [if_pos hinc] at hres
      exact absurd hres (by simp)
    · rw [if_neg hinc] at hres
      simp only [Except.ok.injEq] at hres
      rw [if_neg hd1] at hres
      subst hres
      intro e he
      have := walkForest_depth ⟨incF, incD, patOk, absPaths, rootSegs, d.toNat⟩
        root [] (by simp only [List.length_nil]; omega) e he
      exact this
  · have hfil := walkForest_filter
      ⟨true, true, patOk, absPaths, rootSegs, d.toNat⟩ root []
    simp only at hfil
    unfold treeModel
    rw [if_neg hcond, if_neg hcond]
    simp only [Bool.not_true, Bool.not_false, Bool.false_and, Bool.and_false,
      Bool.false_eq_true, if_false, Except.map]
    rw [if_neg hd1, if_neg hd1, hfil]

theorem tree_depth_and_descent_witness :
    (∀ e ∈ ([⟨["d".data], "d".data, true, 1⟩,
             ⟨["d".data, "f".data], "f".data, false, 2⟩] : List TreeEntry),
      e.depth ≤ (2 : Int).toNat ∧
      (false = false → e.path.length = e.depth)) ∧
    treeModel (.cons (.dir "d".data (.cons (.file "f".data) .nil)) .nil) 2
        (fun _ => true) true false false [] =
      Except.map (List.filter (fun e => !e.isDir))
        (treeModel (.cons (.dir "d".data (.cons (.file "f".data) .nil)) .nil) 2
          (fun _ => true) true true false []) :=
  tree_depth_and_descent
    (.cons (.dir "d".data (.cons (.file "f".data) .nil)) .nil) 2
    (fun _ => true) true true false []
    [⟨["d".data], "d".data, true, 1⟩,
     ⟨["d".data, "f".data], "f".data, false, 2⟩]
    (by decide) (by decide) (by rfl)

/-! ## The error-prefix convention -/

/-- C8 amended: every modelled failing branch of every facade
(`bash_tool` validation, safety rejection and nonzero-exit rendering;
the grep, ls and tree facades; `text_view` range validation;
`str_replace_edit` refusals) returns text beginning `"Error: "` — but
the prefix is not exclusive to failures: a successful command whose own
output begins with `"Error: "` returns it unchanged, so the prefix is a
reporting convention, not a sound failure discriminator. -/
theorem error_prefix_convention :
    (∀ (sh : List Char → List Char) (cmd : List Char), pyStrip cmd = [] →
      isPrefixAt "Error: ".data (bashToolGen sh cmd) = true) ∧
    (∀ (sh : List Char → List Char) (cmd : List Char),
      (isCommandSafe cmd).1 = false →
      isPrefixAt "Error: ".data (bashToolGen sh cmd) = true) ∧
    (∀ (out : List Char) (n : Nat), parseExitCode out = some n → n ≠ 0 →
      isPrefixAt "Error: ".data (renderExecResult out) = true) ∧
    (∀ (files : List (List Char × List (List Char))) (cs : Bool)
      (q : List Char) (mm : Option Int) (e : List Char),
      grepModel files cs q mm = .error e →
      grepToolFacade files cs q mm = "Error: ".data ++ e) ∧
    (∀ (ch : FSForest) (patOk : List (List Char) → Bool) (iF iD aP : Bool)
      (rs : List (List Char)) (e : List Char),
      lsModel ch patOk iF iD aP rs = .error e →
      lsToolFacade ch patOk iF iD aP rs = "Error: ".data ++ e) ∧
    (∀ (rc : FSForest) (md : Int) (patOk : List (List Char) → Bool)
      (iF iD aP : Bool) (rs : List (List Char)) (e : List Char),
      treeModel rc md patOk iF iD aP rs = .error e →
      treeToolFacade rc md patOk iF iD aP rs = "Error: ".data ++ e) ∧
    (∀ (path content : List Char) (sl el mc : Option Int),
      (nonPositive sl || nonPositive el || endBeforeStart sl el) = true →
      isPrefixAt "Error: ".data (textView path content sl el mc) = true) ∧
    (∀ (path orig old new : List Char) (k : Int),
      k < 0 ∨ strReplaceContent orig old new k.toNat = none →
      isPrefixAt "Error: ".data (strReplaceEditResp path orig old new k) = true) := by
  refine ⟨?_, ?_, ?_, ?_, ?_, ?_, ?_, ?_⟩
  · intro sh cmd h
    unfold bashToolGen
    rw [if_pos h]
    decide
  · intro sh cmd h
    by_cases hstrip : pyStrip cmd = []
    · unfold bashToolGen
      rw [if_pos hstrip]
      decide
    · unfold bashToolGen
      rw [if_neg hstrip]
      simp only [h, if_pos rfl]
      exact isPrefixAt_self_append _ _
  · intro out n hp hn
    simp only [renderExecResult, hp]
    by_cases h2 : pyStrip (removeMarkerSuffix out) = []
    · simp only [h2, ne_eq, not_true_eq_false, if_false, if_pos hn]
      show isPrefixAt "Error: ".data
        (("Error: ".data ++ "command failed with exit code ".data) ++
          natToDigits n) = true
      rw [List.append_assoc]
      exact isPrefixAt_self_append _ _
    · simp only [if_pos hn, ne_eq, h2, not_false_eq_true, if_true]
      show isPrefixAt "Error: ".data
        ((("Error: ".data ++ "command failed with exit code ".data) ++
          natToDigits n) ++ '
' :: pyStrip (removeMarkerSuffix out)) = true
      rw [List.append_assoc, List.append_assoc]
      exact isPrefixAt_self_append _ _
  · intro files cs q mm e h
    simp [grepToolFacade, h]
  · intro ch patOk iF iD aP rs e h
    simp [lsToolFacade, h]
  · intro rc md patOk iF iD aP rs e h
    simp [treeToolFacade, h]
  · intro path content sl el mc h
    unfold textView
    by_cases h1 : nonPositive sl = true
    · rw [if_pos h1]
      decide
    · rw [if_neg h1]
      by_cases h2 : nonPositive el = true
      · rw [if_pos h2]
        decide
      · rw [if_neg h2]
        have h3 : endBeforeStart sl el = true := by
          simp only [h1, h2] at h
          simpa using h
        rw [if_pos h3]
        decide
  · intro path orig old new k h
    unfold strReplaceEditResp
    by_cases hk : k < 0
    · rw [if_pos hk]
      decide
    · rw [if_neg hk]
      rcases h with h | h
      · exact absurd h hk
      · unfold strReplaceContent at h
        by_cases ho : old = []
        · rw [if_pos ho] at h ⊢
          by_cases horig : orig = []
          · rw [if_pos horig] at h
            exact absurd h (by simp)
          · rw [if_neg horig]
            decide
        · rw [if_neg ho] at h ⊢
          by_cases hocc : lineSpans true old orig = []
          · rw [if_pos hocc] at h
            rw [if_pos hocc]
            decide
          · rw [if_neg hocc] at h
            rw [if_neg hocc]
            cases hget : (lineSpans true old orig).get? k.toNat with
            | some se =>
              rw [hget] at h
              exact absurd h (by simp)
            | none =>
              have hlen : (lineSpans true old orig).length ≤ k.toNat :=
                List.get?_eq_none.mp hget
              rw [dif_pos hlen]
              rw [show "Error: occurrence_index ".data =
                "Error: ".data ++ "occurrence_index ".data from rfl]
              simp only [List.append_assoc]
              exact isPrefixAt_self_append _ _

/-- C8 counterexample: `bash_tool "echo Error: hi"` is a success — its
exit code parses as 0 — yet its returned text begins with `"Error: "`,
so the prefix alone cannot tell success from failure. -/
theorem error_prefix_not_exclusive :
    parseExitCode (terminalExecute (combinedCmd "echo Error: hi".data)) =
      some 0 ∧
    bashTool "echo Error: hi".data = "Error: hi".data ∧
    isPrefixAt "Error: ".data (bashTool "echo Error: hi".data) = true := by
  exact ⟨by decide, by decide, by decide⟩

theorem error_prefix_convention_witness :
    isPrefixAt "Error: ".data (renderExecResult "__EXIT_CODE:2".data) = true ∧
    grepToolFacade [] true "q".data (some (-1)) =
      "Error: ".data ++ "max_matches must be non-negative or None".data :=
  ⟨error_prefix_convention.2.2.1 "__EXIT_CODE:2".data 2 (by decide) (by decide),
   error_prefix_convention.2.2.2.1 [] true "q".data (some (-1))
     "max_matches must be non-negative or None".data (by rfl)⟩

end Codeu
